import Mathlib

/-!
# Verification of the TI-Tool steganographic extractor and format sniffer

Shallow embedding of the core logic of `api_server.py`:

* `extract_binary_from_lsb` (source lines 64-119): the LSB bit-plane reader,
  length-prefixed payload framer and three-window strategy selector;
* `binary_to_bytes` (lines 121-135): MSB-first bit-string packing;
* `convert_to_png` (lines 137-167): the normalizer wrapper around the external
  image codec (the codec itself is external, abstracted as a parameter);
* `convert_svg_to_png` (lines 169-178): the SVG pass-through;
* `detect_file_type` (lines 180-314): the magic-number container sniffer.

Byte strings are `List Nat` (each element a byte value), bit strings are
`List Nat` (each element 0 or 1, mirroring the Python `str` of "0"/"1"
characters).  Pixel buffers are a shape plus a total intensity function; the
Python code only ever indexes in range for the 3-channel buffers the data
model guarantees, so a total function is a faithful embedding on that domain.
-/

/-- `int(s, 2)` on a bit string: big-endian binary value of the bit list. -/
def bitsToNat (l : List Nat) : Nat :=
  l.foldl (fun a b => 2 * a + b) 0

/-- Big-endian bit string of `n`, `k` bits wide (most-significant bit first):
the encoding used by the claims to build the synthetic length prefix and the
MSB-first packing of payload bytes. -/
def natToBE : Nat → Nat → List Nat
  | 0, _ => []
  | k + 1, n => natToBE k (n / 2) ++ [n % 2]

/-- A decoded raster: `height`, `width`, `channels` from `image_array.shape`,
and `pix i j k` the intensity `image_array[i, j, k]`.  The function is total;
the source only reads indices that are in range for 3-channel buffers. -/
structure PixelBuffer where
  height : Nat
  width : Nat
  channels : Nat
  pix : Nat → Nat → Nat → Nat

/-- The LSB read by the *outer* triple loop of `extract_binary_from_lsb`
(lines 81-85) at flat position `p` of the window starting at `start_row = s`:
the loops `for i in range(start_row, end_row) / for j in range(width) /
for k in range(channels)` enumerate exactly the positions
`i = s + p / (width*channels)`, `j = (p / channels) % width`,
`k = p % channels` in order, and read `image_array[i, j, k] & 1`. -/
def outerBit (buf : PixelBuffer) (s p : Nat) : Nat :=
  buf.pix (s + p / (buf.width * buf.channels))
    ((p / buf.channels) % buf.width) (p % buf.channels) % 2

/-- The `while len(binary_data) < total_bits_needed` loop (lines 93-109).
Each iteration computes `pos = len(binary_data)`, `pixel_index = pos // 3`,
`channel_index = pos % 3`, breaks if `pixel_index >= (end_row-start_row)*width`,
else reads `image_array[start_row + pixel_index//width, pixel_index%width,
channel_index] & 1` and appends it (the `row < end_row and col < width`
guard is kept verbatim).  The loop appends one bit per iteration and stops
once the length reaches `total`, so any `fuel ≥ total - acc.length` gives the
exact loop result; call sites pass `fuel = total`. -/
def fillWhile (buf : PixelBuffer) (s e total : Nat) : Nat → List Nat → List Nat
  | 0, acc => acc
  | fuel + 1, acc =>
    if acc.length < total then
      let pos := acc.length
      let pixelIndex := pos / 3
      if (e - s) * buf.width ≤ pixelIndex then acc
      else
        let row := s + pixelIndex / buf.width
        let col := pixelIndex % buf.width
        if row < e ∧ col < buf.width then
          fillWhile buf s e total fuel (acc ++ [buf.pix row col (pos % 3) % 2])
        else acc
    else acc

/-- One extraction attempt over the window `[s, e)` (the body of the
`for top_skip, bottom_skip in strategies` loop, lines 76-115), with the outer
triple loop flattened to flat positions `p = 0, 1, ...` (`fuel` counts the
positions left; call sites pass `fuel = (e-s)*width*channels`, the exact
number of loop iterations).  After each appended bit, once 32 bits have
accumulated the length prefix is parsed (`int(binary_data[:32], 2)`), the
while loop tries to fill to `32 + data_length*8` bits, and on success the
accumulated string truncated to that target is returned; otherwise the outer
scan continues with the (possibly extended) accumulator. -/
def scanLoop (buf : PixelBuffer) (s e : Nat) : Nat → Nat → List Nat → Option (List Nat)
  | 0, _, _ => none
  | fuel + 1, p, acc =>
    let acc1 := acc ++ [outerBit buf s p]
    if 32 ≤ acc1.length then
      let dataLength := bitsToNat (acc1.take 32)
      let total := 32 + dataLength * 8
      let acc2 := fillWhile buf s e total total acc1
      if total ≤ acc2.length then some (acc2.take total)
      else scanLoop buf s e fuel (p + 1) acc2
    else scanLoop buf s e fuel (p + 1) acc1

/-- One strategy `(top_skip, bottom_skip)`: `start_row = top_skip`,
`end_row = height - bottom_skip`, empty accumulator (line 77-79). -/
def tryStrategy (buf : PixelBuffer) (top bot : Nat) : Option (List Nat) :=
  let s := top
  let e := buf.height - bot
  scanLoop buf s e ((e - s) * buf.width * buf.channels) 0 []

/-- The strategy loop: first strategy to return a frame wins; if all fall
through, `None` (line 117). -/
def tryStrategies (buf : PixelBuffer) : List (Nat × Nat) → Option (List Nat)
  | [] => none
  | (top, bot) :: rest =>
    match tryStrategy buf top bot with
    | some r => some r
    | none => tryStrategies buf rest

/-- `extract_binary_from_lsb` (lines 64-119).  The trim amounts
`int(height * 0.20)` and `int(height * 0.10)` equal `height / 5` and
`height / 10` in truncated machine arithmetic (for every height below 2^52
the float product truncates to exactly the integer quotient). -/
def extract_binary_from_lsb (buf : PixelBuffer) : Option (List Nat) :=
  tryStrategies buf
    [(buf.height / 5, buf.height / 5), (buf.height / 10, buf.height / 10), (0, 0)]

/-- The byte-packing loop of `binary_to_bytes` (lines 128-131): consume the
bit string 8 bits at a time, `int(byte_str, 2)` per chunk; a trailing chunk
shorter than 8 bits is never consumed (the caller has already truncated). -/
def toBytes : List Nat → List Nat
  | b0 :: b1 :: b2 :: b3 :: b4 :: b5 :: b6 :: b7 :: rest =>
    bitsToNat [b0, b1, b2, b3, b4, b5, b6, b7] :: toBytes rest
  | _ => []

/-- `binary_to_bytes` (lines 121-135): truncate to a multiple of 8 bits
(`binary_string[:-(len % 8)]` when `len % 8 != 0`), then pack MSB-first. -/
def binary_to_bytes (bits : List Nat) : List Nat :=
  let bits2 :=
    if bits.length % 8 ≠ 0 then bits.take (bits.length - bits.length % 8) else bits
  toBytes bits2

/-- `bytes.find`: index of the first occurrence of `pat` in `l`
(`none` models Python's `-1`). -/
def findSub (pat : List Nat) : List Nat → Option Nat
  | [] => if pat = [] then some 0 else none
  | a :: rest =>
    if pat.isPrefixOf (a :: rest) then some 0
    else (findSub pat rest).map (· + 1)

/-- `bytes.find(pat, start)`: first occurrence at index `≥ start`, absolute. -/
def findSubFrom (pat : List Nat) (l : List Nat) (start : Nat) : Option Nat :=
  (findSub pat (l.drop start)).map (· + start)

/-- Python slice `l[i:]` for a possibly negative `i` (used by the `ftyp`
branch, line 263: `file_data[mp4_start-4:]`): a negative start counts from
the end of the list, clamped at 0. -/
def pySliceFrom (l : List Nat) (i : Int) : List Nat :=
  if 0 ≤ i then l.drop i.toNat else l.drop (l.length - (-i).toNat)

/-- `convert_to_png` (lines 137-167).  The body of the `try` block delegates
to the external image codec (PIL decode + PNG re-encode), abstracted here as
`codec`; `none` models any exception raised inside the `try`, which the
`except` handler (lines 164-167) turns into returning the original bytes.
The `original_format` string argument of the source only feeds log output
and cannot affect the returned bytes, so it is dropped. -/
def convert_to_png (codec : List Nat → Option (List Nat)) (image_data : List Nat) :
    List Nat :=
  match codec image_data with
  | some png_data => png_data
  | none => image_data

/-- `convert_svg_to_png` (lines 169-178): returns its input unchanged on
every path (the `try` body is a print plus `return svg_data`). -/
def convert_svg_to_png (svg_data : List Nat) : List Nat := svg_data

/-! Magic byte constants of `detect_file_type`, written as byte values. -/

def pngMagic : List Nat := [0x89, 0x50, 0x4E, 0x47]
def jpgMagic : List Nat := [0xFF, 0xD8, 0xFF]
def gif87Magic : List Nat := [71, 73, 70, 56, 55, 97]
def gif89Magic : List Nat := [71, 73, 70, 56, 57, 97]
def riffMagic : List Nat := [82, 73, 70, 70]
def webpTag : List Nat := [87, 69, 66, 80]
def bmMagic : List Nat := [66, 77]
def tiffIIMagic : List Nat := [73, 73, 42, 0]
def tiffMMMagic : List Nat := [77, 77, 0, 42]
def icoMagic : List Nat := [0, 0, 1, 0]
def svgOpenL : List Nat := [60, 115, 118, 103]
def svgOpenU : List Nat := [60, 83, 86, 71]
def svgCloseL : List Nat := [60, 47, 115, 118, 103, 62]
def svgCloseU : List Nat := [60, 47, 83, 86, 71, 62]
def ftypMagic : List Nat := [102, 116, 121, 112]
def aviTag : List Nat := [65, 86, 73]
def mkvMagic : List Nat := [0x1A, 0x45, 0xDF, 0xA3]
def id3Magic : List Nat := [73, 68, 51]
def mp3fbMagic : List Nat := [0xFF, 0xFB]
def waveTag : List Nat := [87, 65, 86, 69]

/-- Embedded PNG check (lines 186-190): first `\x89PNG` anywhere; accept if
more than 8 bytes remain from the match. -/
def checkPngEmbedded (d : List Nat) : Option (String × List Nat) :=
  match findSub pngMagic d with
  | some p =>
    let png_data := d.drop p
    if 8 < png_data.length ∧ pngMagic.isPrefixOf png_data then some ("png", png_data)
    else none
  | none => none

/-- Embedded JPEG check (lines 193-198). -/
def checkJpgEmbedded (codec : List Nat → Option (List Nat)) (d : List Nat) :
    Option (String × List Nat) :=
  match findSub jpgMagic d with
  | some p =>
    let jpg_data := d.drop p
    if 4 < jpg_data.length ∧ jpgMagic.isPrefixOf jpg_data then
      some ("png", convert_to_png codec jpg_data)
    else none
  | none => none

/-- The GIF search (lines 201-203): the `GIF87a` position is preferred even
when `GIF89a` occurs earlier, exactly as in the source. -/
def gifStart (d : List Nat) : Option Nat :=
  match findSub gif87Magic d with
  | some p => some p
  | none => findSub gif89Magic d

/-- Embedded GIF check (lines 201-208). -/
def checkGifEmbedded (codec : List Nat → Option (List Nat)) (d : List Nat) :
    Option (String × List Nat) :=
  match gifStart d with
  | some p =>
    let gif_data := d.drop p
    if 6 < gif_data.length ∧
        (gif87Magic.isPrefixOf gif_data ∨ gif89Magic.isPrefixOf gif_data) then
      some ("png", convert_to_png codec gif_data)
    else none
  | none => none

/-- Embedded WEBP check (lines 211-216). -/
def checkWebpEmbedded (codec : List Nat → Option (List Nat)) (d : List Nat) :
    Option (String × List Nat) :=
  match findSub riffMagic d with
  | some p =>
    if (findSub webpTag ((d.drop p).take 12)).isSome then
      let webp_data := d.drop p
      if 12 < webp_data.length ∧ riffMagic.isPrefixOf webp_data ∧
          (findSub webpTag (webp_data.take 12)).isSome then
        some ("png", convert_to_png codec webp_data)
      else none
    else none
  | none => none

/-- Embedded BMP check (lines 219-224): any `BM` occurrence with more than
2 bytes remaining is accepted; no size field is read. -/
def checkBmpEmbedded (codec : List Nat → Option (List Nat)) (d : List Nat) :
    Option (String × List Nat) :=
  match findSub bmMagic d with
  | some p =>
    let bmp_data := d.drop p
    if 2 < bmp_data.length ∧ bmMagic.isPrefixOf bmp_data then
      some ("png", convert_to_png codec bmp_data)
    else none
  | none => none

/-- The TIFF search (lines 227-229): little-endian magic preferred. -/
def tiffStart (d : List Nat) : Option Nat :=
  match findSub tiffIIMagic d with
  | some p => some p
  | none => findSub tiffMMMagic d

/-- Embedded TIFF check (lines 227-234). -/
def checkTiffEmbedded (codec : List Nat → Option (List Nat)) (d : List Nat) :
    Option (String × List Nat) :=
  match tiffStart d with
  | some p =>
    let tiff_data := d.drop p
    if 4 < tiff_data.length ∧
        (tiffIIMagic.isPrefixOf tiff_data ∨ tiffMMMagic.isPrefixOf tiff_data) then
      some ("png", convert_to_png codec tiff_data)
    else none
  | none => none

/-- Embedded ICO check (lines 237-242). -/
def checkIcoEmbedded (codec : List Nat → Option (List Nat)) (d : List Nat) :
    Option (String × List Nat) :=
  match findSub icoMagic d with
  | some p =>
    let ico_data := d.drop p
    if 4 < ico_data.length ∧ icoMagic.isPrefixOf ico_data then
      some ("png", convert_to_png codec ico_data)
    else none
  | none => none

/-- The SVG open-tag search (lines 245-247): `<svg` first, `<SVG` only when
the lowercase tag is absent. -/
def svgStart (d : List Nat) : Option Nat :=
  match findSub svgOpenL d with
  | some p => some p
  | none => findSub svgOpenU d

/-- The SVG close-tag search from the open position (lines 250-252). -/
def svgEnd (d : List Nat) (s : Nat) : Option Nat :=
  match findSubFrom svgCloseL d s with
  | some q => some q
  | none => findSubFrom svgCloseU d s

/-- Embedded SVG check (lines 245-256): slice from the open tag through the
end of the close tag (`file_data[svg_start:svg_end + 6]`), passed through
`convert_svg_to_png` (the identity). -/
def checkSvgEmbedded (d : List Nat) : Option (String × List Nat) :=
  match svgStart d with
  | some s =>
    match svgEnd d s with
    | some q =>
      let svg_data := (d.drop s).take (q + 6 - s)
      some ("png", convert_svg_to_png svg_data)
    | none => none
  | none => none

/-- Embedded MP4 check (lines 261-264): `ftyp` found at an offset below 20;
the slice starts 4 bytes before the match with Python slice semantics
(a negative start wraps to count from the end of the buffer). -/
def checkMp4 (d : List Nat) : Option (String × List Nat) :=
  match findSub ftypMagic d with
  | some p =>
    if p < 20 then some ("mp4", pySliceFrom d ((p : Int) - 4)) else none
  | none => none

/-- The direct-start `if/elif` chain (lines 269-314). -/
def detectDirect (codec : List Nat → Option (List Nat)) (d : List Nat) :
    String × List Nat :=
  if pngMagic.isPrefixOf d then ("png", d)
  else if jpgMagic.isPrefixOf d then ("png", convert_to_png codec d)
  else if gif87Magic.isPrefixOf d ∨ gif89Magic.isPrefixOf d then
    ("png", convert_to_png codec d)
  else if riffMagic.isPrefixOf d ∧ (findSub webpTag (d.take 12)).isSome then
    ("png", convert_to_png codec d)
  else if bmMagic.isPrefixOf d then ("png", convert_to_png codec d)
  else if tiffIIMagic.isPrefixOf d ∨ tiffMMMagic.isPrefixOf d then
    ("png", convert_to_png codec d)
  else if icoMagic.isPrefixOf d then ("png", convert_to_png codec d)
  else if svgOpenL.isPrefixOf d ∨ svgOpenU.isPrefixOf d then
    ("png", convert_svg_to_png d)
  else if riffMagic.isPrefixOf d ∧ (findSub aviTag (d.take 20)).isSome then ("avi", d)
  else if mkvMagic.isPrefixOf d then ("mkv", d)
  else if id3Magic.isPrefixOf d ∨ mp3fbMagic.isPrefixOf d then ("mp3", d)
  else if riffMagic.isPrefixOf d ∧ (findSub waveTag (d.take 20)).isSome then ("wav", d)
  else ("bin", d)

/-- `detect_file_type` (lines 180-314): the embedded checks in source order,
each falling through (to the next check) exactly when the source does, then
the direct-start chain with the `"bin"` fallback. -/
def detect_file_type (codec : List Nat → Option (List Nat)) (file_data : List Nat) :
    String × List Nat :=
  match checkPngEmbedded file_data with
  | some r => r
  | none =>
  match checkJpgEmbedded codec file_data with
  | some r => r
  | none =>
  match checkGifEmbedded codec file_data with
  | some r => r
  | none =>
  match checkWebpEmbedded codec file_data with
  | some r => r
  | none =>
  match checkBmpEmbedded codec file_data with
  | some r => r
  | none =>
  match checkTiffEmbedded codec file_data with
  | some r => r
  | none =>
  match checkIcoEmbedded codec file_data with
  | some r => r
  | none =>
  match checkSvgEmbedded file_data with
  | some r => r
  | none =>
  match checkMp4 file_data with
  | some r => r
  | none => detectDirect codec file_data

/-! ## Basic facts about the sniffer primitives -/

theorem findSub_prefix (pat : List Nat) :
    ∀ (d : List Nat) (p : Nat), findSub pat d = some p → pat.isPrefixOf (d.drop p) := by
  intro d
  induction d with
  | nil =>
    intro p h
    unfold findSub at h
    split_ifs at h with hp
    · cases h
      subst hp
      simp [List.isPrefixOf]
  | cons a rest ih =>
    intro p h
    unfold findSub at h
    split_ifs at h with hp
    · cases h
      simpa using hp
    · rcases Option.map_eq_some'.mp h with ⟨q, hq, rfl⟩
      simpa using ih q hq

/-- A codec stand-in that always fails (models PIL raising on undecodable
bytes); used to instantiate the abstract external codec in counterexamples
and witnesses. -/
def noCodec : List Nat → Option (List Nat) := fun _ => none

/-! ## C9: normalization degrade -/

/-- C9 (confirmed): for every byte sequence routed to the normalizer, if the
external codec fails to decode it (raises, modelled as `none`), the
normalizer returns the original un-normalized bytes unchanged; being a total
function it never raises, so a codec failure is never surfaced as an error. -/
theorem c9_normalizer_degrade (codec : List Nat → Option (List Nat))
    (image_data : List Nat) (h : codec image_data = none) :
    convert_to_png codec image_data = image_data := by
  unfold convert_to_png
  rw [h]

/-- C9 witness: a concrete failing codec and input. -/
theorem c9_normalizer_degrade_witness :
    noCodec [1, 2, 3] = none ∧ convert_to_png noCodec [1, 2, 3] = [1, 2, 3] :=
  ⟨rfl, c9_normalizer_degrade noCodec [1, 2, 3] rfl⟩

/-! ## C4: negative result after the three windows -/

/-- C4 (confirmed): extraction consults exactly the three windows 20%-trim,
10%-trim, 0%-trim, and returns the negative result `none` precisely when
none of them yields a complete frame; as a total function it cannot raise. -/
theorem c4_none_after_three_windows (buf : PixelBuffer) :
    extract_binary_from_lsb buf = none ↔
      tryStrategy buf (buf.height / 5) (buf.height / 5) = none ∧
        tryStrategy buf (buf.height / 10) (buf.height / 10) = none ∧
          tryStrategy buf 0 0 = none := by
  rcases h1 : tryStrategy buf (buf.height / 5) (buf.height / 5) with _ | r1 <;>
    rcases h2 : tryStrategy buf (buf.height / 10) (buf.height / 10) with _ | r2 <;>
      rcases h3 : tryStrategy buf 0 0 with _ | r3 <;>
        simp [extract_binary_from_lsb, tryStrategies, h1, h2, h3]

/-! ## C10: closed output tag set -/

/-- The complete set of format tags `detect_file_type` can output. -/
def outputTags : List String := ["png", "mp4", "avi", "mkv", "mp3", "wav", "bin"]

theorem checkPngEmbedded_fst (d : List Nat) (r : String × List Nat)
    (h : checkPngEmbedded d = some r) : r.1 = "png" := by
  unfold checkPngEmbedded at h
  split at h
  all_goals try split at h
  all_goals try dsimp only at h
  all_goals try split_ifs at h
  all_goals first
    | (cases h; rfl)
    | exact Option.noConfusion h

theorem checkJpgEmbedded_fst (codec : List Nat → Option (List Nat)) (d : List Nat)
    (r : String × List Nat) (h : checkJpgEmbedded codec d = some r) : r.1 = "png" := by
  unfold checkJpgEmbedded at h
  split at h
  all_goals try split at h
  all_goals try dsimp only at h
  all_goals try split_ifs at h
  all_goals first
    | (cases h; rfl)
    | exact Option.noConfusion h

theorem checkGifEmbedded_fst (codec : List Nat → Option (List Nat)) (d : List Nat)
    (r : String × List Nat) (h : checkGifEmbedded codec d = some r) : r.1 = "png" := by
  unfold checkGifEmbedded at h
  split at h
  all_goals try split at h
  all_goals try dsimp only at h
  all_goals try split_ifs at h
  all_goals first
    | (cases h; rfl)
    | exact Option.noConfusion h

theorem checkWebpEmbedded_fst (codec : List Nat → Option (List Nat)) (d : List Nat)
    (r : String × List Nat) (h : checkWebpEmbedded codec d = some r) : r.1 = "png" := by
  unfold checkWebpEmbedded at h
  split at h
  all_goals try split at h
  all_goals try dsimp only at h
  all_goals try split_ifs at h
  all_goals first
    | (cases h; rfl)
    | exact Option.noConfusion h

theorem checkBmpEmbedded_fst (codec : List Nat → Option (List Nat)) (d : List Nat)
    (r : String × List Nat) (h : checkBmpEmbedded codec d = some r) : r.1 = "png" := by
  unfold checkBmpEmbedded at h
  split at h
  all_goals try split at h
  all_goals try dsimp only at h
  all_goals try split_ifs at h
  all_goals first
    | (cases h; rfl)
    | exact Option.noConfusion h

theorem checkTiffEmbedded_fst (codec : List Nat → Option (List Nat)) (d : List Nat)
    (r : String × List Nat) (h : checkTiffEmbedded codec d = some r) : r.1 = "png" := by
  unfold checkTiffEmbedded at h
  split at h
  all_goals try split at h
  all_goals try dsimp only at h
  all_goals try split_ifs at h
  all_goals first
    | (cases h; rfl)
    | exact Option.noConfusion h

theorem checkIcoEmbedded_fst (codec : List Nat → Option (List Nat)) (d : List Nat)
    (r : String × List Nat) (h : checkIcoEmbedded codec d = some r) : r.1 = "png" := by
  unfold checkIcoEmbedded at h
  split at h
  all_goals try split at h
  all_goals try dsimp only at h
  all_goals try split_ifs at h
  all_goals first
    | (cases h; rfl)
    | exact Option.noConfusion h

theorem checkSvgEmbedded_fst (d : List Nat) (r : String × List Nat)
    (h : checkSvgEmbedded d = some r) : r.1 = "png" := by
  unfold checkSvgEmbedded at h
  split at h
  all_goals try split at h
  all_goals try dsimp only at h
  all_goals try split_ifs at h
  all_goals first
    | (cases h; rfl)
    | exact Option.noConfusion h

theorem checkMp4_fst (d : List Nat) (r : String × List Nat)
    (h : checkMp4 d = some r) : r.1 = "mp4" := by
  unfold checkMp4 at h
  split at h
  all_goals try split at h
  all_goals try dsimp only at h
  all_goals try split_ifs at h
  all_goals first
    | (cases h; rfl)
    | exact Option.noConfusion h

theorem fst_mem_ite (c : Prop) [Decidable c] (a b : String × List Nat)
    (ha : a.1 ∈ outputTags) (hb : b.1 ∈ outputTags) :
    (if c then a else b).1 ∈ outputTags := by
  split <;> assumption

theorem detectDirect_fst_mem (codec : List Nat → Option (List Nat)) (d : List Nat) :
    (detectDirect codec d).1 ∈ outputTags := by
  unfold detectDirect
  repeat' apply fst_mem_ite
  all_goals dsimp only
  all_goals decide

/-- C10 (confirmed): for every codec and input byte sequence the sniffer
returns a tag from exactly the set png, mp4, avi, mkv, mp3, wav, bin; in
particular every recognized still-image format (jpeg, gif, webp, bmp, tiff,
ico, svg) is reported under "png", never under its own tag, since no other
image tag is in the output set. -/
theorem c10_closed_tag_set (codec : List Nat → Option (List Nat)) (d : List Nat) :
    (detect_file_type codec d).1 ∈ outputTags := by
  unfold detect_file_type
  rcases h1 : checkPngEmbedded d with _ | r1
  case some => simp only [h1]; rw [checkPngEmbedded_fst d r1 h1]; decide
  rcases h2 : checkJpgEmbedded codec d with _ | r2
  case some => simp only [h1, h2]; rw [checkJpgEmbedded_fst codec d r2 h2]; decide
  rcases h3 : checkGifEmbedded codec d with _ | r3
  case some => simp only [h1, h2, h3]; rw [checkGifEmbedded_fst codec d r3 h3]; decide
  rcases h4 : checkWebpEmbedded codec d with _ | r4
  case some =>
    simp only [h1, h2, h3, h4]; rw [checkWebpEmbedded_fst codec d r4 h4]; decide
  rcases h5 : checkBmpEmbedded codec d with _ | r5
  case some =>
    simp only [h1, h2, h3, h4, h5]; rw [checkBmpEmbedded_fst codec d r5 h5]; decide
  rcases h6 : checkTiffEmbedded codec d with _ | r6
  case some =>
    simp only [h1, h2, h3, h4, h5, h6]
    rw [checkTiffEmbedded_fst codec d r6 h6]; decide
  rcases h7 : checkIcoEmbedded codec d with _ | r7
  case some =>
    simp only [h1, h2, h3, h4, h5, h6, h7]
    rw [checkIcoEmbedded_fst codec d r7 h7]; decide
  rcases h8 : checkSvgEmbedded d with _ | r8
  case some =>
    simp only [h1, h2, h3, h4, h5, h6, h7, h8]
    rw [checkSvgEmbedded_fst d r8 h8]; decide
  rcases h9 : checkMp4 d with _ | r9
  case some =>
    simp only [h1, h2, h3, h4, h5, h6, h7, h8, h9]
    rw [checkMp4_fst d r9 h9]; decide
  simp only [h1, h2, h3, h4, h5, h6, h7, h8, h9]
  exact detectDirect_fst_mem codec d

/-! ## C2: bitmap size validation -/

/-- Input beginning with the bitmap magic and size field 1 (little-endian),
below the claimed floor of 1000. -/
def bmBadSizeInput : List Nat := [66, 77, 1, 0, 0, 0]

/-- C2 counterexample: the claim requires any `BM` input whose 4-byte size
field is below 1000 to be classified as uninterpretable binary ("bin"), but
the sniffer performs no size validation at all: on `BM` + size field 1 it
returns the bitmap branch tag "png". -/
theorem c2_counterexample :
    (detect_file_type noCodec bmBadSizeInput).1 = "png" ∧ ("png" : String) ≠ "bin" := by
  constructor
  · rfl
  · decide

/-- C2 (amended): no size field is read at all.  Whenever the earlier
embedded signatures (PNG, JPEG, GIF, WEBP) are absent and `BM` occurs with
more than 2 bytes from the match to the end, the input is accepted as a
bitmap regardless of the bytes at offset 2, classified "png" with payload
the codec conversion of the bytes from the `BM` position to the end. -/
theorem c2_amended (codec : List Nat → Option (List Nat)) (d : List Nat) (p : Nat)
    (hpng : findSub pngMagic d = none) (hjpg : findSub jpgMagic d = none)
    (hg87 : findSub gif87Magic d = none) (hg89 : findSub gif89Magic d = none)
    (hriff : findSub riffMagic d = none)
    (hbm : findSub bmMagic d = some p) (hlen : 2 < d.length - p) :
    detect_file_type codec d = ("png", convert_to_png codec (d.drop p)) := by
  unfold detect_file_type checkPngEmbedded checkJpgEmbedded checkGifEmbedded gifStart
    checkWebpEmbedded checkBmpEmbedded
  rw [hpng, hjpg, hg87, hg89, hriff, hbm]
  have hpre := findSub_prefix bmMagic d p hbm
  simp [hpre, hlen]

/-- C2 witness: the amended theorem applied to the concrete undersized
input; the result carries tag "png", not "bin". -/
theorem c2_witness :
    detect_file_type noCodec bmBadSizeInput = ("png", convert_to_png noCodec (bmBadSizeInput.drop 0)) :=
  c2_amended noCodec bmBadSizeInput 0 (by decide) (by decide) (by decide) (by decide)
    (by decide) (by decide) (by decide)

/-! ## C3: sniffer precedence -/

/-- A buffer whose offset-0 bytes match the direct-start GIF signature while
the PNG magic occurs at offset 6. -/
def gifThenPngInput : List Nat :=
  gif87Magic ++ pngMagic ++ [48, 48, 48, 48, 48]

/-- C3 counterexample: the claim requires the direct-start GIF rule (which
returns the codec conversion of the whole buffer, here the identity because
the codec fails) to classify this input; instead the embedded-PNG search,
which runs first, wins and the payload is the sub-slice from offset 6. -/
theorem c3_counterexample :
    detect_file_type noCodec gifThenPngInput = ("png", gifThenPngInput.drop 6) ∧
      gifThenPngInput.drop 6 ≠ gifThenPngInput := by
  constructor
  · rfl
  · decide

/-- C3 (amended): embedded-at-arbitrary-offset signatures are tested before
direct-start ones, with the PNG search absolutely first: whenever the PNG
magic occurs anywhere with more than 8 bytes from the match to the end, the
result is the PNG sub-slice, regardless of any direct-start signature at
offset 0. -/
theorem c3_amended (codec : List Nat → Option (List Nat)) (d : List Nat) (p : Nat)
    (hpng : findSub pngMagic d = some p) (hlen : 8 < d.length - p) :
    detect_file_type codec d = ("png", d.drop p) := by
  unfold detect_file_type checkPngEmbedded
  rw [hpng]
  have hpre := findSub_prefix pngMagic d p hpng
  simp [hpre, hlen]

/-- C3 witness: the amended theorem at the counterexample input, where the
PNG magic sits at offset 6 behind a direct-start GIF signature. -/
theorem c3_witness :
    detect_file_type noCodec gifThenPngInput = ("png", gifThenPngInput.drop 6) :=
  c3_amended noCodec gifThenPngInput 6 (by decide) (by decide)

/-! ## C6: SVG handling -/

/-- A buffer containing a complete SVG pair at offset 2 but with the bitmap
magic `BM` at offset 0. -/
def bmThenSvgInput : List Nat := bmMagic ++ svgOpenL ++ svgCloseL

/-- C6 counterexample: the claim quantifies over every input containing an
SVG open/close pair and requires the SVG slice to be returned, but the
embedded `BM` check runs earlier: on this input the whole buffer goes to the
bitmap branch (codec conversion, here the identity because the codec fails),
not the SVG slice starting at offset 2. -/
theorem c6_counterexample :
    detect_file_type noCodec bmThenSvgInput = ("png", bmThenSvgInput) ∧
      bmThenSvgInput ≠ bmThenSvgInput.drop 2 := by
  constructor
  · rfl
  · decide

/-- C6 (amended): when no earlier-precedence signature (PNG, JPEG, GIF,
WEBP, BMP, TIFF, ICO) occurs anywhere in the buffer, and an opening svg tag
is found (lowercase searched first) with a closing tag at or after it, the
sniffer returns the bytes from the opening tag through the end of the
closing tag unchanged (no rasterization: `convert_svg_to_png` is the
identity), under the output tag "png". -/
theorem c6_amended (codec : List Nat → Option (List Nat)) (d : List Nat) (s q : Nat)
    (hpng : findSub pngMagic d = none) (hjpg : findSub jpgMagic d = none)
    (hg87 : findSub gif87Magic d = none) (hg89 : findSub gif89Magic d = none)
    (hriff : findSub riffMagic d = none) (hbm : findSub bmMagic d = none)
    (htII : findSub tiffIIMagic d = none) (htMM : findSub tiffMMMagic d = none)
    (hico : findSub icoMagic d = none)
    (hs : svgStart d = some s) (hq : svgEnd d s = some q) :
    detect_file_type codec d = ("png", (d.drop s).take (q + 6 - s)) := by
  unfold detect_file_type checkPngEmbedded checkJpgEmbedded checkGifEmbedded gifStart
    checkWebpEmbedded checkBmpEmbedded checkTiffEmbedded tiffStart checkIcoEmbedded
    checkSvgEmbedded
  rw [hpng, hjpg, hg87, hg89, hriff, hbm, htII, htMM, hico, hs]
  simp [hq, convert_svg_to_png]

/-- C6 witness: a pure SVG buffer; the amended theorem returns the whole
open-through-close slice unchanged. -/
theorem c6_witness :
    detect_file_type noCodec (svgOpenL ++ [97] ++ svgCloseL) =
      ("png", (((svgOpenL ++ [97] ++ svgCloseL) : List Nat).drop 0).take (5 + 6 - 0)) :=
  c6_amended noCodec (svgOpenL ++ [97] ++ svgCloseL) 0 5 (by decide) (by decide)
    (by decide) (by decide) (by decide) (by decide) (by decide) (by decide) (by decide)
    (by decide) (by decide)

/-! ## C7: fragmented-media container bounds -/

/-- A 30-byte buffer with the `ftyp` marker at offset 0. -/
def ftypAtZeroInput : List Nat := ftypMagic ++ List.replicate 26 122

/-- C7 counterexample: the claim covers every offset `p < 20` and promises
the container from 4 bytes before the marker to the end (the full buffer
once clamped at the origin); at `p = 0` the source computes
`file_data[-4:]`, a Python negative slice, so the sniffer actually returns
only the last 4 bytes of the buffer — a container that does not even
contain the `ftyp` marker. -/
theorem c7_counterexample :
    detect_file_type noCodec ftypAtZeroInput = ("mp4", List.replicate 4 122) ∧
      List.replicate 4 122 ≠ ftypAtZeroInput := by
  constructor
  · rfl
  · decide

/-- C7 (amended): for matches at offsets `4 ≤ p < 20` (so that 4 preceding
bytes exist and the slice start is non-negative), with no higher-precedence
signature present, the container is the bytes from offset `p - 4` to the end
of the buffer. -/
theorem c7_amended (codec : List Nat → Option (List Nat)) (d : List Nat) (p : Nat)
    (hpng : findSub pngMagic d = none) (hjpg : findSub jpgMagic d = none)
    (hg87 : findSub gif87Magic d = none) (hg89 : findSub gif89Magic d = none)
    (hriff : findSub riffMagic d = none) (hbm : findSub bmMagic d = none)
    (htII : findSub tiffIIMagic d = none) (htMM : findSub tiffMMMagic d = none)
    (hico : findSub icoMagic d = none) (hsvg : svgStart d = none)
    (hftyp : findSub ftypMagic d = some p) (hp4 : 4 ≤ p) (hp20 : p < 20) :
    detect_file_type codec d = ("mp4", d.drop (p - 4)) := by
  unfold detect_file_type checkPngEmbedded checkJpgEmbedded checkGifEmbedded gifStart
    checkWebpEmbedded checkBmpEmbedded checkTiffEmbedded tiffStart checkIcoEmbedded
    checkSvgEmbedded checkMp4
  rw [hpng, hjpg, hg87, hg89, hriff, hbm, htII, htMM, hico, hsvg, hftyp]
  have hsl : pySliceFrom d ((p : Int) - 4) = d.drop (p - 4) := by
    unfold pySliceFrom
    rw [if_pos (by omega)]
    congr 1
    omega
  simp [hp20, hsl]

/-- C7 witness: the spec's own example shape — a 30-byte buffer with `ftyp`
at offset 4 — yields the whole buffer, bytes 0 through 30, as container. -/
theorem c7_witness :
    detect_file_type noCodec ([1, 1, 1, 1] ++ ftypMagic ++ List.replicate 22 122) =
      ("mp4", (([1, 1, 1, 1] ++ ftypMagic ++ List.replicate 22 122) : List Nat).drop (4 - 4)) :=
  c7_amended noCodec ([1, 1, 1, 1] ++ ftypMagic ++ List.replicate 22 122) 4
    (by decide) (by decide) (by decide) (by decide) (by decide) (by decide) (by decide)
    (by decide) (by decide) (by decide) (by decide) (by decide) (by decide)

/-! ## Facts about the extraction loops -/

/-- The while loop only ever appends to the accumulator. -/
theorem fillWhile_append (buf : PixelBuffer) (s e total : Nat) :
    ∀ (fuel : Nat) (acc : List Nat), ∃ t, fillWhile buf s e total fuel acc = acc ++ t := by
  intro fuel
  induction fuel with
  | zero => intro acc; exact ⟨[], (List.append_nil acc).symm⟩
  | succ f ih =>
    intro acc
    simp only [fillWhile]
    split_ifs with h1 h2 h3
    · exact ⟨[], (List.append_nil acc).symm⟩
    · obtain ⟨t, ht⟩ :=
        ih (acc ++ [buf.pix (s + acc.length / 3 / buf.width) (acc.length / 3 % buf.width)
          (acc.length % 3) % 2])
      exact ⟨_, by rw [ht, List.append_assoc]⟩
    · exact ⟨[], (List.append_nil acc).symm⟩
    · exact ⟨[], (List.append_nil acc).symm⟩

/-- Any frame returned by the scan satisfies the length-prefix law: its
length is exactly 32 plus 8 times the value declared by its own first 32
bits. -/
theorem scanLoop_some_frame (buf : PixelBuffer) (s e : Nat) :
    ∀ (fuel p : Nat) (acc r : List Nat), scanLoop buf s e fuel p acc = some r →
      r.length = 32 + bitsToNat (r.take 32) * 8 := by
  intro fuel
  induction fuel with
  | zero => intro p acc r h; exact Option.noConfusion h
  | succ f ih =>
    intro p acc r h
    simp only [scanLoop] at h
    split_ifs at h with h32 htot
    · -- success branch: r is the filled accumulator truncated to the target
      cases h
      obtain ⟨t, ht⟩ := fillWhile_append buf s e
        (32 + bitsToNat ((acc ++ [outerBit buf s p]).take 32) * 8)
        (32 + bitsToNat ((acc ++ [outerBit buf s p]).take 32) * 8)
        (acc ++ [outerBit buf s p])
      rw [ht] at htot ⊢
      have hlen32 : 32 ≤ (acc ++ [outerBit buf s p]).length := h32
      have htk : (((acc ++ [outerBit buf s p]) ++ t).take
            (32 + bitsToNat ((acc ++ [outerBit buf s p]).take 32) * 8)).take 32 =
          (acc ++ [outerBit buf s p]).take 32 := by
        rw [List.take_take, min_eq_left (by omega), List.take_append_eq_append_take,
          Nat.sub_eq_zero_of_le hlen32, List.take_zero, List.append_nil]
      rw [htk, List.length_take, min_eq_left htot]
    · exact ih _ _ _ h
    · exact ih _ _ _ h

/-- Lift of `scanLoop_some_frame` to one strategy. -/
theorem tryStrategy_some_frame (buf : PixelBuffer) (top bot : Nat) (r : List Nat)
    (h : tryStrategy buf top bot = some r) :
    r.length = 32 + bitsToNat (r.take 32) * 8 := by
  unfold tryStrategy at h
  exact scanLoop_some_frame buf _ _ _ _ _ _ h

/-! ## C5: length-prefix semantics -/

/-- C5 (confirmed): every successful extraction returns a bit string whose
first 32 bits, decoded as an unsigned big-endian integer (most-significant
bit extracted first, exactly `int(s, 2)`), declare a length whose bit target
`32 + declaredLength*8` equals the length of the returned string: the
accumulated bits are truncated to exactly that target, so the result length
is always 32 plus a multiple of 8. -/
theorem c5_frame_length (buf : PixelBuffer) (r : List Nat)
    (h : extract_binary_from_lsb buf = some r) :
    r.length = 32 + bitsToNat (r.take 32) * 8 := by
  simp only [extract_binary_from_lsb, tryStrategies] at h
  rcases h1 : tryStrategy buf (buf.height / 5) (buf.height / 5) with _ | r1 <;>
    rcases h2 : tryStrategy buf (buf.height / 10) (buf.height / 10) with _ | r2 <;>
      rcases h3 : tryStrategy buf 0 0 with _ | r3 <;>
        simp only [h1, h2, h3] at h
  all_goals first
    | exact Option.noConfusion h
    | (cases h; first
        | exact tryStrategy_some_frame _ _ _ _ h1
        | exact tryStrategy_some_frame _ _ _ _ h2
        | exact tryStrategy_some_frame _ _ _ _ h3)

/-- An all-zero 1 x 11 three-channel buffer: the window holds 33 bits, the
declared length is 0, and extraction returns the 32-bit frame of zeros. -/
def zeroBuf : PixelBuffer := ⟨1, 11, 3, fun _ _ _ => 0⟩

/-- C5 witness: on the all-zero buffer extraction succeeds with the 32-bit
zero frame, whose declared length 0 gives target 32 = its length. -/
theorem c5_frame_length_witness :
    extract_binary_from_lsb zeroBuf = some (List.replicate 32 0) ∧
      (List.replicate 32 0 : List Nat).length =
        32 + bitsToNat ((List.replicate 32 0 : List Nat).take 32) * 8 :=
  ⟨by decide, c5_frame_length zeroBuf (List.replicate 32 0) (by decide)⟩

/-- The first `m` LSBs of the window starting at row `s`, in raster order
(channel fastest): the reference bit sequence both loops read. -/
def windowBits (buf : PixelBuffer) (s m : Nat) : List Nat :=
  (List.range m).map (outerBit buf s)

theorem windowBits_length (buf : PixelBuffer) (s m : Nat) :
    (windowBits buf s m).length = m := by
  simp [windowBits]

theorem windowBits_succ (buf : PixelBuffer) (s m : Nat) :
    windowBits buf s (m + 1) = windowBits buf s m ++ [outerBit buf s m] := by
  simp [windowBits, List.range_succ]

theorem windowBits_take (buf : PixelBuffer) (s : Nat) (k m : Nat) (h : k ≤ m) :
    (windowBits buf s m).take k = windowBits buf s k := by
  simp [windowBits, ← List.map_take, List.take_range, Nat.min_eq_left h]

/-- For 3-channel buffers the positional read of the while loop coincides
with the outer loop's read at the same flat position. -/
theorem pixRead_eq_outerBit (buf : PixelBuffer) (h3 : buf.channels = 3) (s m : Nat) :
    buf.pix (s + m / 3 / buf.width) (m / 3 % buf.width) (m % 3) % 2 = outerBit buf s m := by
  unfold outerBit
  rw [h3, Nat.div_div_eq_div_mul, Nat.mul_comm 3 buf.width]

/-- Once the accumulator holds at least all the window's bits, the while
loop does nothing (its position check fails immediately). -/
theorem fillWhile_noop (buf : PixelBuffer) (s e total fuel : Nat) (acc : List Nat)
    (hacc : (e - s) * buf.width * 3 ≤ acc.length) :
    fillWhile buf s e total fuel acc = acc := by
  cases fuel with
  | zero => rfl
  | succ f =>
    simp only [fillWhile]
    split_ifs with h1 h2 hrc
    · rfl
    · exact absurd ((Nat.le_div_iff_mul_le (by norm_num)).mpr hacc) h2
    · rfl
    · rfl

/-- Running the while loop from the first `m` window bits fills the
accumulator with exactly the window bits up to the target, stopping early
at the window capacity: the result is the window prefix of length
`min total capacity`. -/
theorem fillWhile_run (buf : PixelBuffer) (s e total : Nat) (h3 : buf.channels = 3) :
    ∀ (fuel m : Nat), m ≤ total → m ≤ (e - s) * buf.width * 3 →
      min total ((e - s) * buf.width * 3) - m ≤ fuel →
      fillWhile buf s e total fuel (windowBits buf s m) =
        windowBits buf s (min total ((e - s) * buf.width * 3)) := by
  intro fuel
  induction fuel with
  | zero =>
    intro m hmt hmc hfuel
    have hm : m = min total ((e - s) * buf.width * 3) := by omega
    rw [hm]
    rfl
  | succ f ih =>
    intro m hmt hmc hfuel
    rcases Nat.eq_or_lt_of_le (le_min hmt hmc) with hm | hm
    · rw [hm]
      simp only [fillWhile, windowBits_length]
      rcases Nat.lt_or_ge (min total ((e - s) * buf.width * 3)) total with hcase | hcase
      · have hmin : min total ((e - s) * buf.width * 3) = (e - s) * buf.width * 3 := by
          omega
        rw [if_pos hcase, if_pos (by rw [hmin]; omega)]
      · rw [if_neg (by omega)]
    · -- m is strictly below both the target and the capacity: one more bit
      have hmt2 : m < total := lt_of_lt_of_le hm (min_le_left _ _)
      have hmc2 : m < (e - s) * buf.width * 3 := lt_of_lt_of_le hm (min_le_right _ _)
      have hw : 0 < buf.width := by
        rcases Nat.eq_zero_or_pos buf.width with h0 | h
        · rw [h0] at hmc2; omega
        · exact h
      have hes : 0 < e - s := by
        rcases Nat.eq_zero_or_pos (e - s) with h0 | h
        · rw [h0] at hmc2; omega
        · exact h
      have hpix : m / 3 < (e - s) * buf.width := by
        rw [Nat.div_lt_iff_lt_mul (by norm_num)]
        exact hmc2
      have hrow : m / 3 / buf.width < e - s := by
        rw [Nat.div_lt_iff_lt_mul hw]
        exact hpix
      simp only [fillWhile, windowBits_length]
      rw [if_pos hmt2, if_neg (by omega), if_pos ⟨by omega, Nat.mod_lt _ hw⟩,
        pixRead_eq_outerBit buf h3, ← windowBits_succ]
      exact ih (m + 1) (by omega) (by omega) (by omega)

/-- If fewer than 32 positions exist, the scan never reaches the parse step
and falls through to the negative result. -/
theorem scanLoop_short (buf : PixelBuffer) (s e : Nat) :
    ∀ (fuel p : Nat) (acc : List Nat), acc.length + fuel ≤ 31 →
      scanLoop buf s e fuel p acc = none := by
  intro fuel
  induction fuel with
  | zero => intro p acc h; rfl
  | succ f ih =>
    intro p acc h
    simp only [scanLoop]
    rw [if_neg (by simp; omega)]
    exact ih (p + 1) _ (by simp; omega)

/-- Phase after window exhaustion: the accumulator already holds at least
all window bits, its 32-bit prefix is frozen at declared length `L0`, and
the target is out of reach even of the duplicated re-reads, so the scan
runs out of positions and yields the negative result. -/
theorem scanLoop_post (buf : PixelBuffer) (s e : Nat) (L0 : Nat)
    (hbig : 2 * ((e - s) * buf.width * 3) - 32 < 32 + L0 * 8) :
    ∀ (fuel p : Nat) (acc : List Nat), 32 ≤ acc.length →
      (e - s) * buf.width * 3 ≤ acc.length →
      bitsToNat (acc.take 32) = L0 →
      acc.length + fuel ≤ 2 * ((e - s) * buf.width * 3) - 32 →
      scanLoop buf s e fuel p acc = none := by
  intro fuel
  induction fuel with
  | zero => intro p acc h32 hcap hL hbound; rfl
  | succ f ih =>
    intro p acc h32 hcap hL hbound
    have htake : (acc ++ [outerBit buf s p]).take 32 = acc.take 32 := by
      rw [List.take_append_eq_append_take, Nat.sub_eq_zero_of_le h32, List.take_zero,
        List.append_nil]
    simp only [scanLoop]
    rw [if_pos (by simp; omega), htake, hL,
      fillWhile_noop buf s e _ _ _ (by simp; omega), if_neg (by simp; omega)]
    exact ih (p + 1) _ (by simp; omega) (by simp; omega)
      (by rw [htake, hL]) (by simp; omega)

/-- The state of the scan the moment the 32nd bit has been read and the
length prefix is parsed for the first time. -/
def triggerStep (buf : PixelBuffer) (s e cap : Nat) : Option (List Nat) :=
  let total := 32 + bitsToNat (windowBits buf s 32) * 8
  let acc2 := fillWhile buf s e total total (windowBits buf s 32)
  if total ≤ acc2.length then some (acc2.take total)
  else scanLoop buf s e (cap - 32) 32 acc2

/-- Walking the first 32 positions of any window with at least 32 positions
reaches exactly the trigger state. -/
theorem scanLoop_walk (buf : PixelBuffer) (s e cap : Nat) (hcap : 32 ≤ cap) :
    ∀ (j m : Nat), m + j = 31 →
      scanLoop buf s e (cap - m) m (windowBits buf s m) = triggerStep buf s e cap := by
  intro j
  induction j with
  | zero =>
    intro m hm
    have hm31 : m = 31 := by omega
    subst hm31
    obtain ⟨f, hf⟩ : ∃ f, cap - 31 = f + 1 := ⟨cap - 32, by omega⟩
    have hf32 : f = cap - 32 := by omega
    rw [hf, hf32]
    simp only [scanLoop, triggerStep, ← windowBits_succ]
    rw [if_pos (by rw [windowBits_length]),
      windowBits_take buf s 32 32 (le_refl 32)]
  | succ j ih =>
    intro m hm
    obtain ⟨f, hf⟩ : ∃ f, cap - m = f + 1 := ⟨cap - m - 1, by omega⟩
    have hf2 : f = cap - (m + 1) := by omega
    rw [hf, hf2]
    simp only [scanLoop, ← windowBits_succ]
    rw [if_neg (by rw [windowBits_length]; omega)]
    exact ih (m + 1) (by omega)

/-- A window is beyond salvage for the scan when it has fewer than 32
positions, or when its declared length implies a bit target exceeding even
the duplicated-read reach of `2 * capacity - 32` bits. -/
def windowOversized (buf : PixelBuffer) (t : Nat) : Prop :=
  (buf.height - t - t) * buf.width * 3 ≤ 31 ∨
    2 * ((buf.height - t - t) * buf.width * 3) - 32 <
      32 + bitsToNat (windowBits buf t 32) * 8

instance (buf : PixelBuffer) (t : Nat) : Decidable (windowOversized buf t) := by
  unfold windowOversized
  exact inferInstance

/-- An oversized window yields nothing: the strategy falls through. -/
theorem tryStrategy_oversized (buf : PixelBuffer) (h3 : buf.channels = 3) (t : Nat)
    (hover : windowOversized buf t) : tryStrategy buf t t = none := by
  unfold tryStrategy
  rw [h3]
  dsimp only
  rcases le_or_lt ((buf.height - t - t) * buf.width * 3) 31 with hshort | hlong
  · exact scanLoop_short buf t (buf.height - t) _ 0 [] (by simpa using hshort)
  · rcases hover with hshort2 | hbig
    · omega
    · have hwalk := scanLoop_walk buf t (buf.height - t)
        ((buf.height - t - t) * buf.width * 3) (by omega) 31 0 (by omega)
      rw [Nat.sub_zero] at hwalk
      show scanLoop buf t (buf.height - t) ((buf.height - t - t) * buf.width * 3) 0
        (windowBits buf t 0) = none
      rw [hwalk]
      unfold triggerStep
      dsimp only
      have hrun := fillWhile_run buf t (buf.height - t)
        (32 + bitsToNat (windowBits buf t 32) * 8) h3
        (32 + bitsToNat (windowBits buf t 32) * 8) 32 (by omega) (by omega) (by omega)
      have hmin : min (32 + bitsToNat (windowBits buf t 32) * 8)
          ((buf.height - t - t) * buf.width * 3) =
          (buf.height - t - t) * buf.width * 3 := by omega
      rw [hmin] at hrun
      rw [hrun, if_neg (by rw [windowBits_length]; omega)]
      exact scanLoop_post buf t (buf.height - t) _ hbig _ 32 _
        (by rw [windowBits_length]; omega) (by rw [windowBits_length])
        (by rw [windowBits_take buf t 32 _ (by omega)])
        (by rw [windowBits_length]; omega)

/-! ## C8: oversized declared length -/

/-- A 1 x 20 three-channel buffer whose window holds 60 bits with LSB 29 set:
the 32-bit prefix declares length 4, so the bit target is 64 > 60. -/
def dupBuf : PixelBuffer := ⟨1, 20, 3, fun _ j k => if 3 * j + k = 29 then 1 else 0⟩

/-- C8 counterexample: the declared target (64 bits) exceeds the window
supply (60 bits), so the claim requires fallback and ultimately the
negative result; instead the outer scan keeps appending bits it has already
consumed once the while loop exhausts the window, reaching the target with
4 duplicated bits and returning a frame. -/
theorem c8_counterexample :
    32 + bitsToNat (windowBits dupBuf 0 32) * 8 = 64 ∧
      (dupBuf.height - 0 - 0) * dupBuf.width * dupBuf.channels = 60 ∧
      extract_binary_from_lsb dupBuf =
        some ((List.range 64).map fun p => if p = 29 then 1 else 0) := by
  refine ⟨by decide, by decide, by decide⟩

/-- C8 (amended): an oversized declared length is not specially rejected and
never raises, but fallback to the next window only happens when the implied
bit target exceeds what the window plus the scan's duplicated re-reads can
supply: if every window either has fewer than 32 positions or declares a
target beyond `2 * capacity - 32` bits, extraction exhausts all three
windows and returns the negative result.  (Targets between the capacity and
that bound instead complete a frame with re-read bits, as the
counterexample shows.) -/
theorem c8_amended (buf : PixelBuffer) (h3 : buf.channels = 3)
    (h20 : windowOversized buf (buf.height / 5))
    (h10 : windowOversized buf (buf.height / 10))
    (h00 : windowOversized buf 0) :
    extract_binary_from_lsb buf = none := by
  have e1 := tryStrategy_oversized buf h3 (buf.height / 5) h20
  have e2 := tryStrategy_oversized buf h3 (buf.height / 10) h10
  have e3 := tryStrategy_oversized buf h3 0 h00
  simp only [extract_binary_from_lsb, tryStrategies, e1, e2, e3]

/-- An all-ones 1 x 11 three-channel buffer: every window declares length
`2^32 - 1`, far beyond any reach. -/
def onesBuf : PixelBuffer := ⟨1, 11, 3, fun _ _ _ => 1⟩

/-- C8 witness: the amended theorem at the all-ones buffer. -/
theorem c8_amended_witness :
    onesBuf.channels = 3 ∧ windowOversized onesBuf (onesBuf.height / 5) ∧
      windowOversized onesBuf (onesBuf.height / 10) ∧ windowOversized onesBuf 0 ∧
      extract_binary_from_lsb onesBuf = none :=
  ⟨rfl, by decide, by decide, by decide,
    c8_amended onesBuf rfl (by decide) (by decide) (by decide)⟩

/-! ## Bit-string encoding facts for the round-trip claim -/

theorem natToBE_length (k n : Nat) : (natToBE k n).length = k := by
  induction k generalizing n with
  | zero => rfl
  | succ k ih => simp [natToBE, ih]

theorem bitsToNat_append_bit (l : List Nat) (b : Nat) :
    bitsToNat (l ++ [b]) = 2 * bitsToNat l + b := by
  simp [bitsToNat, List.foldl_append]

theorem bitsToNat_natToBE (k n : Nat) : bitsToNat (natToBE k n) = n % 2 ^ k := by
  induction k generalizing n with
  | zero => simp [natToBE, bitsToNat, Nat.mod_one]
  | succ k ih =>
    rw [natToBE, bitsToNat_append_bit, ih, pow_succ, Nat.mul_comm (2 ^ k) 2,
      Nat.mod_mul]
    ring

theorem natToBE_add (a b n : Nat) :
    natToBE (a + b) n = natToBE a (n / 2 ^ b) ++ natToBE b n := by
  induction b generalizing n with
  | zero => simp [natToBE]
  | succ b ih =>
    rw [Nat.add_succ, natToBE, ih, natToBE, ← List.append_assoc,
      Nat.div_div_eq_div_mul, ← pow_succ']

theorem natToBE_le_one (k n : Nat) : ∀ x ∈ natToBE k n, x ≤ 1 := by
  induction k generalizing n with
  | zero => simp [natToBE]
  | succ k ih =>
    intro x hx
    rw [natToBE] at hx
    rcases List.mem_append.mp hx with h | h
    · exact ih (n / 2) x h
    · simp at h
      omega

/-- The payload bytes packed MSB-first, 8 bits per byte (the encoding named
by the claim). -/
def payloadBits : List Nat → List Nat
  | [] => []
  | b :: rest => natToBE 8 b ++ payloadBits rest

theorem payloadBits_length (ps : List Nat) : (payloadBits ps).length = 8 * ps.length := by
  induction ps with
  | nil => rfl
  | cons b rest ih => simp [payloadBits, natToBE_length, ih]; ring

theorem payloadBits_le_one (ps : List Nat) : ∀ x ∈ payloadBits ps, x ≤ 1 := by
  induction ps with
  | nil => simp [payloadBits]
  | cons b rest ih =>
    intro x hx
    rcases List.mem_append.mp hx with h | h
    · exact natToBE_le_one 8 b x h
    · exact ih x h

theorem toBytes_append8 (l rest : List Nat) (h : l.length = 8) :
    toBytes (l ++ rest) = bitsToNat l :: toBytes rest := by
  rcases l with _ | ⟨b0, l⟩; · simp at h
  rcases l with _ | ⟨b1, l⟩; · simp at h
  rcases l with _ | ⟨b2, l⟩; · simp at h
  rcases l with _ | ⟨b3, l⟩; · simp at h
  rcases l with _ | ⟨b4, l⟩; · simp at h
  rcases l with _ | ⟨b5, l⟩; · simp at h
  rcases l with _ | ⟨b6, l⟩; · simp at h
  rcases l with _ | ⟨b7, l⟩; · simp at h
  rcases l with _ | ⟨b8, l⟩
  · rfl
  · simp at h

theorem toBytes_payloadBits (ps : List Nat) (hb : ∀ b ∈ ps, b < 256) :
    toBytes (payloadBits ps) = ps := by
  induction ps with
  | nil => rfl
  | cons b rest ih =>
    rw [payloadBits, toBytes_append8 _ _ (natToBE_length 8 b), bitsToNat_natToBE]
    have hlt : b % 2 ^ 8 = b := Nat.mod_eq_of_lt (by exact hb b (by simp))
    rw [hlt, ih (fun x hx => hb x (by simp [hx]))]

/-- The full embedded bit stream named by the claim: 32-bit big-endian
length prefix followed by the payload bytes packed MSB-first. -/
def streamBits (ps : List Nat) : List Nat :=
  natToBE 32 ps.length ++ payloadBits ps

theorem streamBits_length (ps : List Nat) :
    (streamBits ps).length = 32 + 8 * ps.length := by
  simp [streamBits, natToBE_length, payloadBits_length]

theorem streamBits_le_one (ps : List Nat) : ∀ x ∈ streamBits ps, x ≤ 1 := by
  intro x hx
  rcases List.mem_append.mp hx with h | h
  · exact natToBE_le_one 32 ps.length x h
  · exact payloadBits_le_one ps x h

/-- The synthetic 3-channel PixelBuffer of the claim: a single row whose
LSBs, in raster order with the channel fastest, spell the stream (position
`p` maps to column `p / 3`, channel `p % 3`); channel values are the bits
themselves, zero beyond the stream. -/
def mkStego (ps : List Nat) : PixelBuffer :=
  ⟨1, 32 + 8 * ps.length, 3, fun _ j k => (streamBits ps).getD (3 * j + k) 0⟩

theorem getD_le_one (l : List Nat) (hl : ∀ x ∈ l, x ≤ 1) (p : Nat) : l.getD p 0 ≤ 1 := by
  rcases Nat.lt_or_ge p l.length with h | h
  · rw [List.getD_eq_getElem l 0 h]
    exact hl _ (List.getElem_mem h)
  · rw [List.getD_eq_default l 0 h]
    omega

theorem mkStego_outerBit (ps : List Nat) (p : Nat) (hp : p < 3 * (32 + 8 * ps.length)) :
    outerBit (mkStego ps) 0 p = (streamBits ps).getD p 0 := by
  unfold outerBit mkStego
  have hdiv : p / 3 < 32 + 8 * ps.length := by omega
  have hmod : p / 3 % (32 + 8 * ps.length) = p / 3 := Nat.mod_eq_of_lt hdiv
  simp only [hmod]
  have hpos : 3 * (p / 3) + p % 3 = p := by omega
  rw [hpos]
  exact Nat.mod_eq_of_lt (by
    have := getD_le_one (streamBits ps) (streamBits_le_one ps) p
    omega)

theorem range_map_getD (l : List Nat) (m : Nat) (h : m ≤ l.length) :
    (List.range m).map (fun p => l.getD p 0) = l.take m := by
  apply List.ext_getElem
  · simp [h]
  · intro i h1 h2
    simp only [List.getElem_map, List.getElem_range, List.getElem_take]
    exact List.getD_eq_getElem l 0 (by simp at h1; omega)

theorem mkStego_windowBits (ps : List Nat) (m : Nat) (hm : m ≤ 32 + 8 * ps.length) :
    windowBits (mkStego ps) 0 m = (streamBits ps).take m := by
  unfold windowBits
  rw [← range_map_getD (streamBits ps) m (by rw [streamBits_length]; omega)]
  apply List.map_congr_left
  intro p hp
  exact mkStego_outerBit ps p (by simp at hp; omega)

/-- On the synthetic single-row buffer, the very first strategy (all three
windows coincide with the full image) completes the frame: extraction
returns the whole embedded stream, length prefix included. -/
theorem mkStego_extract (ps : List Nat) (hn : ps.length < 2 ^ 32) :
    extract_binary_from_lsb (mkStego ps) = some (streamBits ps) := by
  have hh : (mkStego ps).height = 1 := rfl
  have hw : (mkStego ps).width = 32 + 8 * ps.length := rfl
  have hc : (mkStego ps).channels = 3 := rfl
  have ht32 : (streamBits ps).take 32 = natToBE 32 ps.length := by
    unfold streamBits
    rw [List.take_append_eq_append_take, natToBE_length,
      List.take_of_length_le (le_of_eq (natToBE_length 32 ps.length))]
    simp
  have hL : bitsToNat (windowBits (mkStego ps) 0 32) = ps.length := by
    rw [mkStego_windowBits ps 32 (by omega), ht32, bitsToNat_natToBE,
      Nat.mod_eq_of_lt hn]
  have hmain : tryStrategy (mkStego ps) 0 0 = some (streamBits ps) := by
    unfold tryStrategy
    dsimp only
    rw [hh, hw, hc]
    simp only [Nat.sub_zero, Nat.one_mul]
    have hwalk := scanLoop_walk (mkStego ps) 0 1 ((32 + 8 * ps.length) * 3)
      (by omega) 31 0 (by omega)
    rw [Nat.sub_zero] at hwalk
    show scanLoop (mkStego ps) 0 1 ((32 + 8 * ps.length) * 3) 0
      (windowBits (mkStego ps) 0 0) = some (streamBits ps)
    rw [hwalk]
    unfold triggerStep
    dsimp only
    rw [hL]
    have hrun := fillWhile_run (mkStego ps) 0 1 (32 + ps.length * 8) hc
      (32 + ps.length * 8) 32 (by omega) (by rw [hw]; omega)
      (by rw [hw]; omega)
    rw [hw] at hrun
    simp only [Nat.sub_zero, Nat.one_mul] at hrun
    have hmin : min (32 + ps.length * 8) ((32 + 8 * ps.length) * 3) =
        32 + ps.length * 8 := by omega
    rw [hmin] at hrun
    rw [hrun, mkStego_windowBits ps (32 + ps.length * 8) (by omega),
      List.take_of_length_le (by rw [streamBits_length]; omega),
      if_pos (by rw [streamBits_length]; omega),
      List.take_of_length_le (by rw [streamBits_length]; omega)]
  have h5 : (mkStego ps).height / 5 = 0 := by rw [hh]
  have h10 : (mkStego ps).height / 10 = 0 := by rw [hh]
  simp only [extract_binary_from_lsb, tryStrategies, h5, h10, hmain]

/-! ## C1: round-trip -/

set_option maxHeartbeats 3200000 in
/-- C1 counterexample: for payload `[171]` the synthetic buffer's LSBs spell
the 32-bit big-endian prefix (value 1) followed by the byte 171 MSB-first,
but the pipeline returns the 4 prefix bytes together with the payload — the
extractor never strips the length prefix before `binary_to_bytes` — so the
recovered bytes are not the original payload. -/
theorem c1_counterexample :
    (extract_binary_from_lsb (mkStego [171])).map binary_to_bytes =
        some [0, 0, 0, 1, 171] ∧
      ([0, 0, 0, 1, 171] : List Nat) ≠ [171] := by
  exact ⟨by decide, by decide⟩

/-- C1 (amended): for every payload of fewer than `2^32` bytes, running the
extraction pipeline over the synthetic single-row 3-channel buffer whose
LSBs (raster order, channel fastest) spell the 32-bit big-endian length
prefix followed by the payload bytes packed MSB-first recovers the 4
big-endian length-prefix bytes followed by exactly the original payload
bytes (the prefix is part of the returned frame, not stripped). -/
theorem c1_amended (ps : List Nat) (hb : ∀ b ∈ ps, b < 256) (hn : ps.length < 2 ^ 32) :
    (extract_binary_from_lsb (mkStego ps)).map binary_to_bytes =
      some ([ps.length / 2 ^ 24 % 256, ps.length / 2 ^ 16 % 256,
        ps.length / 2 ^ 8 % 256, ps.length % 256] ++ ps) := by
  rw [mkStego_extract ps hn]
  show some (binary_to_bytes (streamBits ps)) =
    some ([ps.length / 2 ^ 24 % 256, ps.length / 2 ^ 16 % 256,
      ps.length / 2 ^ 8 % 256, ps.length % 256] ++ ps)
  refine congrArg some ?h

  have hcond : ¬((streamBits ps).length % 8 ≠ 0) := by
    rw [streamBits_length]
    omega
  unfold binary_to_bytes
  rw [if_neg hcond]
  unfold streamBits
  have e32 : natToBE 32 ps.length =
      natToBE 8 (ps.length / 2 ^ 24) ++ (natToBE 8 (ps.length / 2 ^ 16) ++
        (natToBE 8 (ps.length / 2 ^ 8) ++ natToBE 8 ps.length)) := by
    have a1 := natToBE_add 8 24 ps.length
    have a2 := natToBE_add 8 16 ps.length
    have a3 := natToBE_add 8 8 ps.length
    rw [(by norm_num : (32 : Nat) = 8 + 24), a1, (by norm_num : (24 : Nat) = 8 + 16),
      a2, (by norm_num : (16 : Nat) = 8 + 8), a3]
  rw [e32]
  simp only [List.append_assoc]
  rw [toBytes_append8 _ _ (natToBE_length 8 _), toBytes_append8 _ _ (natToBE_length 8 _),
    toBytes_append8 _ _ (natToBE_length 8 _), toBytes_append8 _ _ (natToBE_length 8 _),
    toBytes_payloadBits ps hb, bitsToNat_natToBE, bitsToNat_natToBE, bitsToNat_natToBE,
    bitsToNat_natToBE]
  norm_num

/-- C1 witness: the amended theorem at the concrete payload `[171]`. -/
theorem c1_amended_witness :
    (extract_binary_from_lsb (mkStego [171])).map binary_to_bytes =
      some ([(1 : Nat) / 2 ^ 24 % 256, 1 / 2 ^ 16 % 256, 1 / 2 ^ 8 % 256,
        1 % 256] ++ [171]) :=
  c1_amended [171] (by decide) (by decide)
